import Mathlib

/-!
Verification of `chains/hyperlane-sealevel/src/transaction.rs`: searching a
batch of Solana transactions for Hyperlane mailbox message dispatch/delivery
transactions.  The data model and the functions below are a shallow embedding
of the Rust source; machine integers are modelled as `Nat` with `% 256` at
the single point where the source casts a `usize` to `u8`.
-/

set_option maxRecDepth 65536

namespace HyperlaneSealevelTx

/-- Modelled from the spec: the externally-decoded protocol instruction
(`hyperlane_sealevel_mailbox::instruction::Instruction`), a tagged variant
with the two recognized protocol actions and other variants. -/
inductive Instruction where
  | OutboxDispatch (payload : Nat)
  | InboxProcess (payload : Nat)
  | Other (payload : Nat)
deriving DecidableEq

/-- 64-byte transaction identifier (`hyperlane_core::H512`); treated as an
opaque identifier by this core. -/
structure H512 where
  val : Nat
deriving DecidableEq

/-- Fixed-length account address (`solana_sdk::pubkey::Pubkey`); the core only
ever compares its string rendering against account-key strings. -/
structure Pubkey where
  key : String
deriving DecidableEq

def Pubkey.to_string (p : Pubkey) : String := p.key

/-- `solana_transaction_status::UiCompiledInstruction`: one invocation, with
byte-valued account indices and a base58-encoded payload. -/
structure UiCompiledInstruction where
  program_id_index : Nat
  accounts : List Nat
  data : String
deriving DecidableEq

/-- `solana_transaction_status::UiInstruction`: an inner invocation is either
in compiled form or in a non-structured (parsed) form. -/
inductive UiInstruction where
  | Compiled (ci : UiCompiledInstruction)
  | Parsed
deriving DecidableEq

/-- One inner-instruction trace, grouped under a top-level instruction index. -/
structure UiInnerInstructions where
  index : Nat
  instructions : List UiInstruction
deriving DecidableEq

/-- `solana_transaction_status::option_serializer::OptionSerializer`. -/
inductive OptionSerializer (α : Type) where
  | Some (a : α)
  | None
  | Skip
deriving DecidableEq

/-- The only metadata field this core reads. -/
structure UiTransactionStatusMeta where
  inner_instructions : OptionSerializer (List UiInnerInstructions)
deriving DecidableEq

/-- Raw message form: explicit account-key list plus top-level instructions. -/
structure UiRawMessage where
  account_keys : List String
  instructions : List UiCompiledInstruction
deriving DecidableEq

inductive UiMessage where
  | Raw (m : UiRawMessage)
  | Parsed
deriving DecidableEq

structure UiTransaction where
  signatures : List String
  message : UiMessage
deriving DecidableEq

inductive EncodedTransaction where
  | Json (t : UiTransaction)
  | Other
deriving DecidableEq

structure EncodedTransactionWithStatusMeta where
  transaction : EncodedTransaction
  meta : Option UiTransactionStatusMeta
deriving DecidableEq

/-- Modelled from the spec: the external decoding dependencies consumed as
black boxes — the signature decoder `decode_h512`, the base58 byte decoder
`from_base58`, and the protocol instruction decoder
`Instruction::from_instruction_data`; each fails on malformed input, which we
shallowly embed as `Option`. -/
structure ExternalDeps where
  decode_h512 : String → Option H512
  from_base58 : String → Option (List Nat)
  from_instruction_data : List Nat → Option Instruction

/-- `std::collections::HashMap<String, usize>` modelled as an association
list in insertion order; `insert` overwrites the value of an existing key. -/
abbrev HMap : Type := List (String × Nat)

def HMap.insert (m : HMap) (k : String) (v : Nat) : HMap :=
  if m.any (fun p => p.1 == k) then
    m.map (fun p => if p.1 == k then (k, v) else p)
  else
    m ++ [(k, v)]

def HMap.get (m : HMap) (k : String) : Option Nat :=
  Option.map Prod.snd (List.find? (fun p => p.1 == k) m)

/-- `account_index_map`: collect `(key, index)` pairs from the enumerated
account keys into a map. -/
def account_index_map (account_keys : List String) : HMap :=
  List.foldl (fun m p => HMap.insert m p.2 p.1) [] account_keys.enum

/-- `instructions`: extract all instructions from a transaction, top-level
ones first, then the compiled inner instructions of the flattened traces. -/
def instructions (instruction : List UiCompiledInstruction)
    (meta : UiTransactionStatusMeta) : List UiCompiledInstruction :=
  let inner_instructions :=
    match meta.inner_instructions with
    | OptionSerializer.Some ii =>
        List.filterMap
          (fun i =>
            match i with
            | UiInstruction.Compiled ci => some ci
            | _ => none)
          (List.flatMap ii (fun inner => inner.instructions))
    | OptionSerializer.None | OptionSerializer.Skip => []
  instruction ++ inner_instructions

/-- `filter_by_encoding`: keep only JSON-encoded transactions with
non-empty metadata. -/
def filter_by_encoding (tx : EncodedTransactionWithStatusMeta) :
    Option (UiTransaction × UiTransactionStatusMeta) :=
  match tx.transaction, tx.meta with
  | EncodedTransaction.Json t, some m => some (t, m)
  | _, _ => none

/-- `filter_by_validity`: decode the first signature into the transaction
hash, require the raw message form, and flatten the instructions. -/
def filter_by_validity (deps : ExternalDeps) (tx : UiTransaction)
    (meta : UiTransactionStatusMeta) :
    Option (H512 × List String × List UiCompiledInstruction) :=
  match Option.bind tx.signatures.head? deps.decode_h512 with
  | none => none
  | some transaction_hash =>
    match tx.message with
    | UiMessage.Raw message =>
        some (transaction_hash, message.account_keys,
          instructions message.instructions meta)
    | UiMessage.Parsed => none

/-- `filter_by_relevancy`: look the mailbox program and the message-storage
PDA up in the account-index map (casting the positions `as u8`), find the
first instruction invoking the mailbox program, require it to reference the
PDA account, decode its payload, and keep the transaction when the supplied
predicate returns `false` on the decoded instruction. -/
def filter_by_relevancy (deps : ExternalDeps) (mailbox_program_id : Pubkey)
    (message_storage_pda_pubkey : Pubkey) (hash : H512)
    (account_keys : List String) (instrs : List UiCompiledInstruction)
    (is_specified_message_instruction : Instruction → Bool) : Option H512 :=
  let m := account_index_map account_keys
  match HMap.get m mailbox_program_id.to_string with
  | none => none
  | some i =>
    let mailbox_program_index := i % 256
    match HMap.get m message_storage_pda_pubkey.to_string with
    | none => none
    | some j =>
      let message_storage_pda_account_index := j % 256
      match List.find?
          (fun ins => ins.program_id_index == mailbox_program_index) instrs with
      | none => none
      | some mailbox_program =>
        if !(mailbox_program.accounts.contains message_storage_pda_account_index)
        then none
        else
          match deps.from_base58 mailbox_program.data with
          | none => none
          | some d =>
            match deps.from_instruction_data d with
            | none => none
            | some instr =>
              if is_specified_message_instruction instr then none
              else some hash

/-- `is_message_dispatch_instruction`: `!matches!(i, OutboxDispatch(_))`. -/
def is_message_dispatch_instruction (instruction : Instruction) : Bool :=
  !(match instruction with
    | Instruction.OutboxDispatch _ => true
    | _ => false)

/-- `is_message_delivery_instruction`: `!matches!(i, InboxProcess(_))`. -/
def is_message_delivery_instruction (instruction : Instruction) : Bool :=
  !(match instruction with
    | Instruction.InboxProcess _ => true
    | _ => false)

/-- `search_message_transactions`: the three filter stages chained over the
enumerated batch. -/
def search_message_transactions (deps : ExternalDeps)
    (mailbox_program_id : Pubkey) (message_storage_pda_pubkey : Pubkey)
    (transactions : List EncodedTransactionWithStatusMeta)
    (is_specified_message_instruction : Instruction → Bool) :
    List (Nat × H512) :=
  List.filterMap
    (fun p =>
      Option.map (fun h => (p.1, h))
        (filter_by_relevancy deps mailbox_program_id message_storage_pda_pubkey
          p.2.1 p.2.2.1 p.2.2.2 is_specified_message_instruction))
    (List.filterMap
      (fun p =>
        Option.map (fun q => (p.1, q.1, q.2.1, q.2.2))
          (filter_by_validity deps p.2.1 p.2.2))
      (List.filterMap
        (fun p => Option.map (fun q => (p.1, q.1, q.2)) (filter_by_encoding p.2))
        transactions.enum))

/-- The whole per-transaction pipeline as one function: encoding filter, then
validity filter, then relevancy filter. -/
def process_tx (deps : ExternalDeps) (pid pda : Pubkey)
    (pred : Instruction → Bool) (tx : EncodedTransactionWithStatusMeta) :
    Option H512 :=
  Option.bind (filter_by_encoding tx) (fun q =>
    Option.bind (filter_by_validity deps q.1 q.2) (fun r =>
      filter_by_relevancy deps pid pda r.1 r.2.1 r.2.2 pred))

/-- Concrete external decoders used to instantiate witness checks: both
decoders key their output on the input's length and fail on designated
inputs (`"badsig"` for signatures, `"bad"` for base58 payloads). -/
def testDeps : ExternalDeps where
  decode_h512 := fun s => if s = "badsig" then none else some ⟨s.length⟩
  from_base58 := fun s => if s = "bad" then none else some [s.length]
  from_instruction_data := fun d =>
    match d with
    | [1] => some (Instruction.OutboxDispatch 0)
    | [2] => some (Instruction.InboxProcess 0)
    | [3] => some (Instruction.Other 0)
    | _ => none

/-- A transaction whose only invocation of the mailbox program `"MB"`
against the PDA `"PDA"` is an inner instruction; its top-level instruction
invokes a different program (account 0). -/
def innerOnlyTx : EncodedTransactionWithStatusMeta :=
  ⟨EncodedTransaction.Json
      ⟨["sig"], UiMessage.Raw ⟨["FEE", "MB", "PDA"], [⟨0, [], "x"⟩]⟩⟩,
    some ⟨OptionSerializer.Some [⟨0, [UiInstruction.Compiled ⟨1, [2], "x"⟩]⟩]⟩⟩

/-- 257 account keys: `"a"` at positions 0–255 and `"p"` at position 256,
exercising the `as u8` truncation of account positions. -/
def wrapKeys : List String := List.replicate 256 "a" ++ ["p"]

/-- The projection applied inline by `instructions` to each inner
invocation: keep the compiled form, drop the non-structured form. -/
def toCompiled (x : UiInstruction) : Option UiCompiledInstruction :=
  match x with
  | UiInstruction.Compiled ci => some ci
  | UiInstruction.Parsed => none

/-! ### Helper lemmas about the `HashMap` model -/

theorem find?_key_cons_pos (a : String × Nat) (m : HMap) (s : String)
    (h : (a.1 == s) = true) :
    List.find? (fun p => p.1 == s) (a :: m) = some a :=
  List.find?_cons_of_pos m h

theorem find?_key_cons_neg (a : String × Nat) (m : HMap) (s : String)
    (h : (a.1 == s) = false) :
    List.find? (fun p => p.1 == s) (a :: m) =
      List.find? (fun p => p.1 == s) m :=
  List.find?_cons_of_neg m (by rw [h]; exact Bool.false_ne_true)

theorem find?_map_replace_ne (m : HMap) (k : String) (v : Nat) (s : String)
    (h : s ≠ k) :
    List.find? (fun p => p.1 == s)
        (m.map (fun p => if p.1 == k then (k, v) else p)) =
      List.find? (fun p => p.1 == s) m := by
  induction m with
  | nil => rfl
  | cons a m ih =>
    rw [List.map_cons]
    cases ha : (a.1 == k) with
    | true =>
      rw [if_pos rfl]
      have hks : ((k : String) == s) = false := by
        rw [beq_eq_false_iff_ne]
        exact fun hk => h hk.symm
      have has : (a.1 == s) = false := by
        rw [beq_eq_false_iff_ne]
        rw [beq_iff_eq] at ha
        rw [ha]
        exact fun hk => h hk.symm
      rw [find?_key_cons_neg _ _ _ hks, find?_key_cons_neg _ _ _ has, ih]
    | false =>
      rw [if_neg Bool.false_ne_true]
      cases has : (a.1 == s) with
      | true =>
        rw [find?_key_cons_pos _ _ _ has, find?_key_cons_pos _ _ _ has]
      | false =>
        rw [find?_key_cons_neg _ _ _ has, find?_key_cons_neg _ _ _ has, ih]

theorem find?_map_replace_eq (m : HMap) (k : String) (v : Nat)
    (h : m.any (fun p => p.1 == k) = true) :
    List.find? (fun p => p.1 == k)
        (m.map (fun p => if p.1 == k then (k, v) else p)) = some (k, v) := by
  induction m with
  | nil => simp at h
  | cons a m ih =>
    rw [List.map_cons]
    cases ha : (a.1 == k) with
    | true =>
      rw [if_pos rfl]
      exact find?_key_cons_pos _ _ _ (by simp)
    | false =>
      rw [if_neg Bool.false_ne_true]
      have h' : m.any (fun p => p.1 == k) = true := by
        rcases List.any_eq_true.mp h with ⟨x, hx, hxk⟩
        rcases List.mem_cons.mp hx with rfl | hx
        · rw [ha] at hxk
          exact absurd hxk Bool.false_ne_true
        · exact List.any_eq_true.mpr ⟨x, hx, hxk⟩
      rw [find?_key_cons_neg _ _ _ ha, ih h']

theorem HMap.get_insert (m : HMap) (k : String) (v : Nat) (s : String) :
    HMap.get (HMap.insert m k v) s =
      if s = k then some v else HMap.get m s := by
  unfold HMap.insert HMap.get
  by_cases hany : m.any (fun p => p.1 == k) = true
  · rw [if_pos hany]
    by_cases hs : s = k
    · rw [hs, find?_map_replace_eq m k v hany, if_pos rfl]
      rfl
    · rw [find?_map_replace_ne m k v s hs, if_neg hs]
  · rw [if_neg hany]
    have hnone : List.find? (fun p => p.1 == k) m = none := by
      rw [List.find?_eq_none]
      intro x hx hxk
      exact hany (List.any_eq_true.mpr ⟨x, hx, hxk⟩)
    by_cases hs : s = k
    · rw [hs, List.find?_append, hnone, Option.none_or, if_pos rfl,
        find?_key_cons_pos (k, v) [] k (by simp)]
      rfl
    · have hks : ((k : String) == s) = false := by
        rw [beq_eq_false_iff_ne]
        exact fun hk => hs hk.symm
      rw [List.find?_append, find?_key_cons_neg (k, v) [] s hks,
        List.find?_nil, Option.or_none, if_neg hs]

theorem get_foldl_insert (l : List (Nat × String)) (m : HMap) (s : String) :
    HMap.get (List.foldl (fun m p => HMap.insert m p.2 p.1) m l) s =
      (match List.find? (fun p => p.2 == s) l.reverse with
        | some p => some p.1
        | none => HMap.get m s) := by
  induction l generalizing m with
  | nil => simp
  | cons a l ih =>
    simp only [List.foldl_cons, List.reverse_cons, List.find?_append]
    rw [ih]
    cases hfind : List.find? (fun p => p.2 == s) l.reverse with
    | some p => simp
    | none =>
      simp only [Option.none_or]
      rw [HMap.get_insert]
      by_cases hs : s = a.2
      · have : (a.2 == s) = true := by simp [beq_iff_eq, hs]
        simp [List.find?, this, hs]
      · have : ¬(a.2 == s) = true := by
          simp [beq_iff_eq]
          exact fun hk => hs hk.symm
        simp [List.find?, this, hs]

/-- Characterization of the account-index map: looking a key up returns the
position of its **last** occurrence in the account-key list. -/
theorem get_account_index_map (keys : List String) (s : String) :
    HMap.get (account_index_map keys) s =
      Option.map Prod.fst (List.find? (fun p => p.2 == s) keys.enum.reverse) := by
  unfold account_index_map
  rw [get_foldl_insert]
  cases hfind : List.find? (fun p => p.2 == s) keys.enum.reverse with
  | some p => simp
  | none => simp [HMap.get]

theorem snd_mem_of_mem_enumFrom {α : Type} {p : Nat × α} {n : Nat}
    {l : List α} (h : p ∈ List.enumFrom n l) : p.2 ∈ l := by
  obtain ⟨i, a⟩ := p
  obtain ⟨-, h2, h3⟩ := List.mem_enumFrom h
  rw [h3]
  exact List.getElem_mem _

theorem get_account_index_map_eq_none (keys : List String) (s : String)
    (h : s ∉ keys) : HMap.get (account_index_map keys) s = none := by
  rw [get_account_index_map]
  have : List.find? (fun p => p.2 == s) keys.enum.reverse = none := by
    rw [List.find?_eq_none]
    intro x hx hxs
    rw [beq_iff_eq] at hxs
    exact h (hxs ▸ snd_mem_of_mem_enumFrom (List.mem_reverse.mp hx))
  simp [this]

/-! ### The pipeline as a single `filterMap` over the enumerated batch -/

theorem search_eq_filterMap (deps : ExternalDeps) (pid pda : Pubkey)
    (txs : List EncodedTransactionWithStatusMeta) (pred : Instruction → Bool) :
    search_message_transactions deps pid pda txs pred =
      List.filterMap
        (fun p =>
          Option.map (fun h => (p.1, h)) (process_tx deps pid pda pred p.2))
        txs.enum := by
  unfold search_message_transactions process_tx
  rw [List.filterMap_filterMap, List.filterMap_filterMap]
  congr 1
  funext p
  cases hq : filter_by_encoding p.2 with
  | none => simp
  | some q =>
    cases hr : filter_by_validity deps q.1 q.2 with
    | none => simp [hr]
    | some r =>
      cases hz : filter_by_relevancy deps pid pda r.1 r.2.1 r.2.2 pred with
      | none => simp [hr, hz]
      | some z => simp [hr, hz]

theorem fst_le_of_mem_filterMap_enumFrom {α β : Type} {f : α → Option β}
    {l : List α} {n : Nat} {x : Nat × β}
    (h : x ∈ List.filterMap
      (fun p => Option.map (fun h => (p.1, h)) (f p.2)) (List.enumFrom n l)) :
    n ≤ x.1 := by
  rcases List.mem_filterMap.mp h with ⟨p, hp, hfp⟩
  cases hf : f p.2 with
  | none => rw [hf] at hfp; simp at hfp
  | some b =>
    rw [hf] at hfp
    obtain ⟨i, a⟩ := p
    simp only [Option.map_some'] at hfp
    cases hfp
    exact (List.mem_enumFrom hp).1

theorem pairwise_lt_filterMap_enumFrom {α β : Type} (f : α → Option β)
    (l : List α) (n : Nat) :
    List.Pairwise (fun a b => a.1 < b.1)
      (List.filterMap (fun p => Option.map (fun h => (p.1, h)) (f p.2))
        (List.enumFrom n l)) := by
  induction l generalizing n with
  | nil => exact List.Pairwise.nil
  | cons a l ih =>
    rw [List.enumFrom_cons, List.filterMap_cons]
    dsimp only
    cases hf : f a with
    | none =>
      exact ih (n + 1)
    | some b =>
      exact List.pairwise_cons.mpr
        ⟨fun x hx => Nat.lt_of_succ_le (fst_le_of_mem_filterMap_enumFrom hx),
          ih (n + 1)⟩

theorem mem_filterMap_enum_iff {α β : Type} (f : α → Option β) (l : List α)
    (i : Nat) (h : β) :
    ((i, h) ∈ List.filterMap
        (fun p => Option.map (fun x => (p.1, x)) (f p.2)) l.enum) ↔
      ∃ a, l.get? i = some a ∧ f a = some h := by
  rw [List.mem_filterMap]
  constructor
  · rintro ⟨p, hp, hfp⟩
    cases hf : f p.2 with
    | none => rw [hf] at hfp; simp at hfp
    | some b =>
      rw [hf] at hfp
      simp only [Option.map_some', Option.some.injEq] at hfp
      obtain ⟨i', a⟩ := p
      obtain ⟨h1, h2⟩ := Prod.mk.injEq .. ▸ hfp
      rcases List.mem_iff_get?.mp hp with ⟨m, hm⟩
      rw [List.get?_enum] at hm
      cases hl : l.get? m with
      | none => rw [hl] at hm; simp at hm
      | some a' =>
        rw [hl] at hm
        simp only [Option.map_some', Option.some.injEq] at hm
        obtain ⟨hm1, hm2⟩ := Prod.mk.injEq .. ▸ hm
        have hfa : f a = some b := hf
        refine ⟨a, ?_, ?_⟩
        · rw [← h1, ← hm1, hl, hm2]
        · rw [hfa, h2]
  · rintro ⟨a, ha, hfa⟩
    refine ⟨(i, a), ?_, ?_⟩
    · rcases List.get?_eq_some.mp ha with ⟨hlt, hget⟩
      apply List.mem_iff_get?.mpr ⟨i, ?_⟩
      rw [List.get?_enum, ha]
      rfl
    · rw [hfa]
      rfl

theorem filterMap_flatMap_comm {α β γ : Type} (l : List α) (g : α → List β)
    (f : β → Option γ) :
    List.filterMap f (List.flatMap l g) =
      List.flatMap l (fun a => List.filterMap f (g a)) := by
  induction l with
  | nil => rfl
  | cons a l ih =>
    rw [List.flatMap_cons, List.flatMap_cons, List.filterMap_append, ih]

theorem filterMap_enumFrom_set_filter {α β : Type} (f : α → Option β)
    (l : List α) (n k : Nat) (x : α) :
    List.filter (fun p => !(p.1 == n + k))
        (List.filterMap (fun p => Option.map (fun h => (p.1, h)) (f p.2))
          (List.enumFrom n (l.set k x))) =
      List.filter (fun p => !(p.1 == n + k))
        (List.filterMap (fun p => Option.map (fun h => (p.1, h)) (f p.2))
          (List.enumFrom n l)) := by
  induction l generalizing n k with
  | nil => rfl
  | cons a l ih =>
    cases k with
    | zero =>
      rw [List.set_cons_zero, List.enumFrom_cons, List.enumFrom_cons,
        List.filterMap_cons, List.filterMap_cons]
      dsimp only
      have hn : (n == n + 0) = true := by simp
      cases hx : f x with
      | none =>
        cases ha : f a with
        | none => rfl
        | some b =>
          simp only [Option.map_none', Option.map_some', List.filter_cons,
            hn, Bool.not_true, Bool.false_eq_true, if_false]
      | some b =>
        cases ha : f a with
        | none =>
          simp only [Option.map_none', Option.map_some', List.filter_cons,
            hn, Bool.not_true, Bool.false_eq_true, if_false]
        | some c =>
          simp only [Option.map_none', Option.map_some', List.filter_cons,
            hn, Bool.not_true, Bool.false_eq_true, if_false]
    | succ k =>
      rw [List.set_cons_succ, List.enumFrom_cons, List.enumFrom_cons,
        List.filterMap_cons, List.filterMap_cons]
      dsimp only
      have heq : n + (k + 1) = (n + 1) + k := by omega
      cases ha : f a with
      | none =>
        simp only [Option.map_none']
        rw [heq]
        exact ih (n + 1) k
      | some b =>
        simp only [Option.map_some', List.filter_cons]
        rw [heq, ih (n + 1) k]

/-! ### Claims -/

/-- C1: the classification predicates are exclude-on-true —
`is_message_dispatch_instruction` returns `true` exactly when the
instruction is not an `OutboxDispatch` variant,
`is_message_delivery_instruction` returns `true` exactly when it is not an
`InboxProcess` variant, and once the relevancy filter has decoded the
instruction it rejects the transaction exactly when the supplied predicate
returns `true` on it, accepting and returning the transaction identifier
when the predicate returns `false`. -/
theorem C1_exclude_on_true (instr : Instruction) (deps : ExternalDeps)
    (pid pda : Pubkey) (hash : H512) (keys : List String)
    (instrs : List UiCompiledInstruction) (pred : Instruction → Bool)
    (i j : Nat) (mp : UiCompiledInstruction) (d : List Nat) (ins : Instruction)
    (h1 : HMap.get (account_index_map keys) pid.to_string = some i)
    (h2 : HMap.get (account_index_map keys) pda.to_string = some j)
    (h3 : List.find? (fun x => x.program_id_index == i % 256) instrs = some mp)
    (h4 : mp.accounts.contains (j % 256) = true)
    (h5 : deps.from_base58 mp.data = some d)
    (h6 : deps.from_instruction_data d = some ins) :
    (is_message_dispatch_instruction instr = true ↔
        ∀ payload, instr ≠ Instruction.OutboxDispatch payload) ∧
    (is_message_delivery_instruction instr = true ↔
        ∀ payload, instr ≠ Instruction.InboxProcess payload) ∧
    filter_by_relevancy deps pid pda hash keys instrs pred =
      (if pred ins then none else some hash) := by
  refine ⟨?_, ?_, ?_⟩
  · cases instr <;> simp [is_message_dispatch_instruction]
  · cases instr <;> simp [is_message_delivery_instruction]
  · unfold filter_by_relevancy
    simp only [h1, h2, h3, h4, h5, h6, Bool.not_true, Bool.false_eq_true,
      if_false]

/-- Closed-instance check of `C1_exclude_on_true`. -/
theorem C1_exclude_on_true_witness :
    HMap.get (account_index_map ["MB", "PDA"])
        (Pubkey.to_string ⟨"MB"⟩) = some 0 ∧
    HMap.get (account_index_map ["MB", "PDA"])
        (Pubkey.to_string ⟨"PDA"⟩) = some 1 ∧
    (is_message_dispatch_instruction (Instruction.Other 0) = true ↔
        ∀ payload, Instruction.Other 0 ≠ Instruction.OutboxDispatch payload) ∧
    (is_message_delivery_instruction (Instruction.Other 0) = true ↔
        ∀ payload, Instruction.Other 0 ≠ Instruction.InboxProcess payload) ∧
    filter_by_relevancy testDeps ⟨"MB"⟩ ⟨"PDA"⟩ ⟨7⟩ ["MB", "PDA"]
        [⟨0, [1], "x"⟩] is_message_dispatch_instruction =
      (if is_message_dispatch_instruction (Instruction.OutboxDispatch 0)
        then none else some ⟨7⟩) :=
  ⟨by decide, by decide,
    C1_exclude_on_true (Instruction.Other 0) testDeps ⟨"MB"⟩ ⟨"PDA"⟩ ⟨7⟩
      ["MB", "PDA"] [⟨0, [1], "x"⟩] is_message_dispatch_instruction
      0 1 ⟨0, [1], "x"⟩ [1] (Instruction.OutboxDispatch 0)
      (by decide) (by decide) (by decide) (by decide) (by decide) (by decide)⟩

/-- C2: the output of `search_message_transactions` is exactly the
subsequence of `(index, hash)` pairs of matching transactions in original
batch order — indices are strictly increasing, and `(i, h)` is in the
output precisely when the transaction at zero-based position `i` of the
batch passes the whole pipeline producing hash `h`. -/
theorem C2_result_ordering (deps : ExternalDeps) (pid pda : Pubkey)
    (txs : List EncodedTransactionWithStatusMeta) (pred : Instruction → Bool) :
    List.Pairwise (fun a b => a.1 < b.1)
        (search_message_transactions deps pid pda txs pred) ∧
    ∀ i h, ((i, h) ∈ search_message_transactions deps pid pda txs pred ↔
      ∃ tx, txs.get? i = some tx ∧ process_tx deps pid pda pred tx = some h) := by
  constructor
  · rw [search_eq_filterMap]
    exact pairwise_lt_filterMap_enumFrom (process_tx deps pid pda pred) txs 0
  · intro i h
    rw [search_eq_filterMap]
    exact mem_filterMap_enum_iff (process_tx deps pid pda pred) txs i h

/-- C3: the flattened instruction sequence of a valid transaction is the
top-level instructions in order followed by the compiled inner instructions
in trace order with traces flattened, non-compiled inner invocations being
dropped silently; consequently a transaction whose only matching invocation
is an inner instruction is included in the search results. -/
theorem C3_inner_flattening (instr : List UiCompiledInstruction)
    (ii : List UiInnerInstructions) :
    (instructions instr ⟨OptionSerializer.Some ii⟩ =
      instr ++ List.flatMap ii
        (fun t => List.filterMap toCompiled t.instructions)) ∧
    (instructions instr ⟨OptionSerializer.None⟩ = instr) ∧
    (instructions instr ⟨OptionSerializer.Skip⟩ = instr) ∧
    search_message_transactions testDeps ⟨"MB"⟩ ⟨"PDA"⟩ [innerOnlyTx]
        is_message_dispatch_instruction = [(0, ⟨3⟩)] := by
  refine ⟨?_, ?_, ?_, by rfl⟩
  · have h1 : instructions instr ⟨OptionSerializer.Some ii⟩ =
        instr ++ List.filterMap toCompiled
          (List.flatMap ii (fun inner => inner.instructions)) := by
      show instr ++
          List.filterMap
            (fun i =>
              match i with
              | UiInstruction.Compiled ci => some ci
              | _ => none)
            (List.flatMap ii (fun inner => inner.instructions)) =
        instr ++ List.filterMap toCompiled
          (List.flatMap ii (fun inner => inner.instructions))
      congr 1
      congr 1
      funext x
      cases x <;> rfl
    rw [h1, filterMap_flatMap_comm]
  · show instr ++ [] = instr
    exact List.append_nil instr
  · show instr ++ [] = instr
    exact List.append_nil instr

/-- C4: only the first invocation in the flattened sequence whose program
index equals the mailbox program's truncated account index determines
relevancy — if no such invocation exists the transaction is excluded, and
the filter's outcome only depends on that first match, never on later
invocations of the target program. -/
theorem C4_first_match_only (deps : ExternalDeps) (pid pda : Pubkey)
    (hash : H512) (keys : List String)
    (instrs1 instrs2 : List UiCompiledInstruction)
    (pred : Instruction → Bool) (i j : Nat)
    (h1 : HMap.get (account_index_map keys) pid.to_string = some i)
    (h2 : HMap.get (account_index_map keys) pda.to_string = some j) :
    (List.find? (fun x => x.program_id_index == i % 256) instrs1 = none →
      filter_by_relevancy deps pid pda hash keys instrs1 pred = none) ∧
    (List.find? (fun x => x.program_id_index == i % 256) instrs1 =
        List.find? (fun x => x.program_id_index == i % 256) instrs2 →
      filter_by_relevancy deps pid pda hash keys instrs1 pred =
        filter_by_relevancy deps pid pda hash keys instrs2 pred) := by
  constructor
  · intro hf
    unfold filter_by_relevancy
    simp only [h1, h2, hf]
  · intro hf
    unfold filter_by_relevancy
    simp only [h1, h2, hf]

/-- Closed-instance check of `C4_first_match_only`: a batch entry whose
instructions never invoke the mailbox program is excluded, and appending
further non-first-match instructions does not change the outcome. -/
theorem C4_first_match_only_witness :
    HMap.get (account_index_map ["MB", "PDA"])
        (Pubkey.to_string ⟨"MB"⟩) = some 0 ∧
    HMap.get (account_index_map ["MB", "PDA"])
        (Pubkey.to_string ⟨"PDA"⟩) = some 1 ∧
    filter_by_relevancy testDeps ⟨"MB"⟩ ⟨"PDA"⟩ ⟨7⟩ ["MB", "PDA"]
        [⟨5, [], "x"⟩] is_message_dispatch_instruction = none ∧
    filter_by_relevancy testDeps ⟨"MB"⟩ ⟨"PDA"⟩ ⟨7⟩ ["MB", "PDA"]
        [⟨5, [], "x"⟩] is_message_dispatch_instruction =
      filter_by_relevancy testDeps ⟨"MB"⟩ ⟨"PDA"⟩ ⟨7⟩ ["MB", "PDA"]
        [⟨5, [], "y"⟩, ⟨7, [], "z"⟩] is_message_dispatch_instruction :=
  ⟨by rfl, by rfl,
    (C4_first_match_only testDeps ⟨"MB"⟩ ⟨"PDA"⟩ ⟨7⟩ ["MB", "PDA"]
        [⟨5, [], "x"⟩] [⟨5, [], "y"⟩, ⟨7, [], "z"⟩]
        is_message_dispatch_instruction 0 1 (by rfl) (by rfl)).1 (by rfl),
    (C4_first_match_only testDeps ⟨"MB"⟩ ⟨"PDA"⟩ ⟨7⟩ ["MB", "PDA"]
        [⟨5, [], "x"⟩] [⟨5, [], "y"⟩, ⟨7, [], "z"⟩]
        is_message_dispatch_instruction 0 1 (by rfl) (by rfl)).2 (by rfl)⟩

/-- C5: per-transaction failures only exclude that transaction — replacing
any batch entry leaves every other index's results unchanged, and a
transaction whose matched invocation has a payload that fails base58
decoding is itself excluded by the relevancy filter. -/
theorem C5_failure_isolation (deps : ExternalDeps) (pid pda : Pubkey)
    (pred : Instruction → Bool) :
    (∀ (txs : List EncodedTransactionWithStatusMeta) (k : Nat)
        (tx' : EncodedTransactionWithStatusMeta),
      List.filter (fun p => !(p.1 == k))
          (search_message_transactions deps pid pda (txs.set k tx') pred) =
        List.filter (fun p => !(p.1 == k))
          (search_message_transactions deps pid pda txs pred)) ∧
    (∀ (hash : H512) (keys : List String)
        (instrs : List UiCompiledInstruction) (i j : Nat)
        (mp : UiCompiledInstruction),
      HMap.get (account_index_map keys) pid.to_string = some i →
      HMap.get (account_index_map keys) pda.to_string = some j →
      List.find? (fun x => x.program_id_index == i % 256) instrs = some mp →
      mp.accounts.contains (j % 256) = true →
      deps.from_base58 mp.data = none →
      filter_by_relevancy deps pid pda hash keys instrs pred = none) := by
  constructor
  · intro txs k tx'
    rw [search_eq_filterMap, search_eq_filterMap]
    have h := filterMap_enumFrom_set_filter
      (process_tx deps pid pda pred) txs 0 k tx'
    rw [Nat.zero_add] at h
    exact h
  · intro hash keys instrs i j mp h1 h2 h3 h4 h5
    unfold filter_by_relevancy
    simp only [h1, h2, h3, h4, h5, Bool.not_true, Bool.false_eq_true, if_false]

/-- Closed-instance check of `C5_failure_isolation`: a batch containing a
transaction with a `"bad"` base58 payload at index 0 agrees with the
unmodified batch at every other index, and the bad-payload transaction is
excluded by the relevancy filter. -/
theorem C5_failure_isolation_witness :
    List.filter (fun p => !(p.1 == 0))
        (search_message_transactions testDeps ⟨"MB"⟩ ⟨"PDA"⟩
          ([innerOnlyTx, innerOnlyTx].set 0
            ⟨EncodedTransaction.Json
                ⟨["sig"], UiMessage.Raw ⟨["FEE", "MB", "PDA"],
                  [⟨1, [2], "bad"⟩]⟩⟩,
              some ⟨OptionSerializer.None⟩⟩)
          is_message_dispatch_instruction) =
      List.filter (fun p => !(p.1 == 0))
        (search_message_transactions testDeps ⟨"MB"⟩ ⟨"PDA"⟩
          [innerOnlyTx, innerOnlyTx] is_message_dispatch_instruction) ∧
    testDeps.from_base58 "bad" = none ∧
    filter_by_relevancy testDeps ⟨"MB"⟩ ⟨"PDA"⟩ ⟨7⟩ ["FEE", "MB", "PDA"]
        [⟨1, [2], "bad"⟩] is_message_dispatch_instruction = none :=
  ⟨(C5_failure_isolation testDeps ⟨"MB"⟩ ⟨"PDA"⟩
      is_message_dispatch_instruction).1 [innerOnlyTx, innerOnlyTx] 0
      ⟨EncodedTransaction.Json
          ⟨["sig"], UiMessage.Raw ⟨["FEE", "MB", "PDA"], [⟨1, [2], "bad"⟩]⟩⟩,
        some ⟨OptionSerializer.None⟩⟩,
    by rfl,
    (C5_failure_isolation testDeps ⟨"MB"⟩ ⟨"PDA"⟩
      is_message_dispatch_instruction).2 ⟨7⟩ ["FEE", "MB", "PDA"]
      [⟨1, [2], "bad"⟩] 1 2 ⟨1, [2], "bad"⟩
      (by rfl) (by rfl) (by rfl) (by rfl) (by rfl)⟩

/-- C6: a transaction whose account key list does not contain the target
mailbox program identifier, or does not contain the target message-record
account identifier, is excluded regardless of its instruction content. -/
theorem C6_absent_account_excludes (deps : ExternalDeps) (pid pda : Pubkey)
    (hash : H512) (keys : List String) (instrs : List UiCompiledInstruction)
    (pred : Instruction → Bool) :
    (pid.to_string ∉ keys →
      filter_by_relevancy deps pid pda hash keys instrs pred = none) ∧
    (pda.to_string ∉ keys →
      filter_by_relevancy deps pid pda hash keys instrs pred = none) := by
  constructor
  · intro h
    unfold filter_by_relevancy
    simp only [get_account_index_map_eq_none keys pid.to_string h]
  · intro h
    unfold filter_by_relevancy
    cases hm : HMap.get (account_index_map keys) pid.to_string with
    | none => simp only [hm]
    | some i =>
      simp only [hm, get_account_index_map_eq_none keys pda.to_string h]

/-- Closed-instance check of `C6_absent_account_excludes`. -/
theorem C6_absent_account_excludes_witness :
    (Pubkey.to_string ⟨"MB"⟩ ∉ ["X", "PDA"]) ∧
    filter_by_relevancy testDeps ⟨"MB"⟩ ⟨"PDA"⟩ ⟨7⟩ ["X", "PDA"]
        [⟨0, [1], "x"⟩] is_message_dispatch_instruction = none ∧
    (Pubkey.to_string ⟨"PDA"⟩ ∉ ["MB", "X"]) ∧
    filter_by_relevancy testDeps ⟨"MB"⟩ ⟨"PDA"⟩ ⟨7⟩ ["MB", "X"]
        [⟨0, [1], "x"⟩] is_message_dispatch_instruction = none :=
  ⟨by decide,
    (C6_absent_account_excludes testDeps ⟨"MB"⟩ ⟨"PDA"⟩ ⟨7⟩ ["X", "PDA"]
      [⟨0, [1], "x"⟩] is_message_dispatch_instruction).1 (by decide),
    by decide,
    (C6_absent_account_excludes testDeps ⟨"MB"⟩ ⟨"PDA"⟩ ⟨7⟩ ["MB", "X"]
      [⟨0, [1], "x"⟩] is_message_dispatch_instruction).2 (by decide)⟩

/-- C7: when the mailbox program is invoked but the inspected invocation's
referenced account indices do not contain the target account's (truncated)
index, the transaction is excluded. -/
theorem C7_account_not_referenced (deps : ExternalDeps) (pid pda : Pubkey)
    (hash : H512) (keys : List String) (instrs : List UiCompiledInstruction)
    (pred : Instruction → Bool) (i j : Nat) (mp : UiCompiledInstruction)
    (h1 : HMap.get (account_index_map keys) pid.to_string = some i)
    (h2 : HMap.get (account_index_map keys) pda.to_string = some j)
    (h3 : List.find? (fun x => x.program_id_index == i % 256) instrs = some mp)
    (h4 : mp.accounts.contains (j % 256) = false) :
    filter_by_relevancy deps pid pda hash keys instrs pred = none := by
  unfold filter_by_relevancy
  simp only [h1, h2, h3, h4, Bool.not_false, if_true]

/-- Closed-instance check of `C7_account_not_referenced`. -/
theorem C7_account_not_referenced_witness :
    (([0] : List Nat).contains (1 % 256) = false) ∧
    filter_by_relevancy testDeps ⟨"MB"⟩ ⟨"PDA"⟩ ⟨7⟩ ["MB", "PDA"]
        [⟨0, [0], "x"⟩] is_message_dispatch_instruction = none :=
  ⟨by rfl,
    C7_account_not_referenced testDeps ⟨"MB"⟩ ⟨"PDA"⟩ ⟨7⟩ ["MB", "PDA"]
      [⟨0, [0], "x"⟩] is_message_dispatch_instruction 0 1 ⟨0, [0], "x"⟩
      (by rfl) (by rfl) (by rfl) (by rfl)⟩

/-- C8: the transaction identifier is derived solely from the first
signature — an empty signature list or an undecodable first signature
excludes the transaction, subsequent signatures never affect the outcome,
and on success the decoded first signature is the returned identifier. -/
theorem C8_first_signature_identity (deps : ExternalDeps)
    (meta : UiTransactionStatusMeta) (msg : UiMessage) :
    (filter_by_validity deps ⟨[], msg⟩ meta = none) ∧
    (∀ s rest, deps.decode_h512 s = none →
      filter_by_validity deps ⟨s :: rest, msg⟩ meta = none) ∧
    (∀ s rest1 rest2,
      filter_by_validity deps ⟨s :: rest1, msg⟩ meta =
        filter_by_validity deps ⟨s :: rest2, msg⟩ meta) ∧
    (∀ s rest h m, deps.decode_h512 s = some h →
      filter_by_validity deps ⟨s :: rest, UiMessage.Raw m⟩ meta =
        some (h, m.account_keys, instructions m.instructions meta)) := by
  refine ⟨rfl, ?_, ?_, ?_⟩
  · intro s rest hd
    unfold filter_by_validity
    simp only [List.head?_cons, Option.some_bind, hd]
  · intro s rest1 rest2
    rfl
  · intro s rest h m hd
    unfold filter_by_validity
    simp only [List.head?_cons, Option.some_bind, hd]

/-- Closed-instance check of `C8_first_signature_identity`. -/
theorem C8_first_signature_identity_witness :
    testDeps.decode_h512 "badsig" = none ∧
    testDeps.decode_h512 "sig" = some ⟨3⟩ ∧
    filter_by_validity testDeps ⟨[], UiMessage.Raw ⟨[], []⟩⟩
        ⟨OptionSerializer.None⟩ = none ∧
    filter_by_validity testDeps ⟨["badsig"], UiMessage.Raw ⟨[], []⟩⟩
        ⟨OptionSerializer.None⟩ = none ∧
    filter_by_validity testDeps
        ⟨["sig"], UiMessage.Raw ⟨[], []⟩⟩ ⟨OptionSerializer.None⟩ =
      filter_by_validity testDeps
        ⟨["sig", "extra"], UiMessage.Raw ⟨[], []⟩⟩ ⟨OptionSerializer.None⟩ ∧
    filter_by_validity testDeps ⟨["sig"], UiMessage.Raw ⟨["K"], []⟩⟩
        ⟨OptionSerializer.None⟩ = some (⟨3⟩, ["K"], []) :=
  ⟨by rfl, by rfl,
    (C8_first_signature_identity testDeps ⟨OptionSerializer.None⟩
      (UiMessage.Raw ⟨[], []⟩)).1,
    (C8_first_signature_identity testDeps ⟨OptionSerializer.None⟩
      (UiMessage.Raw ⟨[], []⟩)).2.1 "badsig" [] (by rfl),
    (C8_first_signature_identity testDeps ⟨OptionSerializer.None⟩
      (UiMessage.Raw ⟨[], []⟩)).2.2.1 "sig" [] ["extra"],
    (C8_first_signature_identity testDeps ⟨OptionSerializer.None⟩
      (UiMessage.Raw ⟨[], []⟩)).2.2.2 "sig" [] ⟨3⟩ ⟨["K"], []⟩ (by rfl)⟩

/-- C9: account positions are truncated to 8 bits by the `as u8` casts —
the relevancy outcome only depends on the looked-up positions modulo 256,
and on a 257-key list where the target program sits at position 256 an
instruction whose program index is 0 (a different account's position) is
treated as the matching mailbox invocation and the transaction is
accepted. -/
theorem C9_u8_truncation (deps : ExternalDeps) (pid pda : Pubkey)
    (hash : H512) (keys1 keys2 : List String)
    (instrs : List UiCompiledInstruction) (pred : Instruction → Bool)
    (i j i' j' : Nat)
    (h1 : HMap.get (account_index_map keys1) pid.to_string = some i)
    (h2 : HMap.get (account_index_map keys1) pda.to_string = some j)
    (h3 : HMap.get (account_index_map keys2) pid.to_string = some i')
    (h4 : HMap.get (account_index_map keys2) pda.to_string = some j')
    (h5 : i % 256 = i' % 256) (h6 : j % 256 = j' % 256) :
    (filter_by_relevancy deps pid pda hash keys1 instrs pred =
      filter_by_relevancy deps pid pda hash keys2 instrs pred) ∧
    HMap.get (account_index_map wrapKeys) (Pubkey.to_string ⟨"p"⟩) =
      some 256 ∧
    filter_by_relevancy testDeps ⟨"p"⟩ ⟨"a"⟩ ⟨7⟩ wrapKeys
        [⟨0, [255], "x"⟩] is_message_dispatch_instruction = some ⟨7⟩ := by
  refine ⟨?_, by rfl, by rfl⟩
  unfold filter_by_relevancy
  simp only [h1, h2, h3, h4, h5, h6]

/-- Closed-instance check of `C9_u8_truncation`: a 2-key list and a 257-key
list with the same positions modulo 256 produce the same outcome. -/
theorem C9_u8_truncation_witness :
    HMap.get (account_index_map ("z" :: "P" :: (List.replicate 254 "z"
        ++ ["M"]))) (Pubkey.to_string ⟨"M"⟩) = some 256 ∧
    (0 % 256 = 256 % 256) ∧
    filter_by_relevancy testDeps ⟨"M"⟩ ⟨"P"⟩ ⟨7⟩ ["M", "P"]
        [⟨0, [1], "x"⟩] is_message_dispatch_instruction =
      filter_by_relevancy testDeps ⟨"M"⟩ ⟨"P"⟩ ⟨7⟩
        ("z" :: "P" :: (List.replicate 254 "z" ++ ["M"]))
        [⟨0, [1], "x"⟩] is_message_dispatch_instruction :=
  ⟨by rfl, by rfl,
    (C9_u8_truncation testDeps ⟨"M"⟩ ⟨"P"⟩ ⟨7⟩ ["M", "P"]
      ("z" :: "P" :: (List.replicate 254 "z" ++ ["M"]))
      [⟨0, [1], "x"⟩] is_message_dispatch_instruction
      0 1 256 1 (by rfl) (by rfl) (by rfl) (by rfl) (by rfl) (by rfl)).1⟩

/-- C10: the account-index map records the position of the **last**
occurrence of a duplicated key — looking any key up returns the first
match in the reversed enumeration of the account-key list, and on
`["a", "b", "a"]` the key `"a"` maps to position 2. -/
theorem C10_last_occurrence_wins (keys : List String) (s : String) :
    (HMap.get (account_index_map keys) s =
      Option.map Prod.fst
        (List.find? (fun p => p.2 == s) keys.enum.reverse)) ∧
    HMap.get (account_index_map ["a", "b", "a"]) "a" = some 2 :=
  ⟨get_account_index_map keys s, by rfl⟩

end HyperlaneSealevelTx
